import Mathlib

/-!
# Verification of `scripts/process_translocations.py`

Shallow embedding of the one-shot batch transform in
`src/scripts/process_translocations.py`, together with proofs of the
testable properties stated in the specification.

Modelling decisions (each definition cites the source lines it embeds):

* Python strings are Lean `String`s; the character-level helpers
  (`pyLower`, `pyStrip`, `splitOnceCh`) are structurally recursive so
  that every pipeline function evaluates inside the kernel.
* A CSV data row is modelled as a total function `String → String` from
  column name to cell text, matching `csv.DictReader`'s rows (every
  field name is a key of every row).
* The valid-cell-line universe `set(metadata["cellLines"])` is modelled
  by the list of strings from `metadata.json`; set membership is list
  membership and the set's size is `valid.dedup.length`.
* Python `dict`s (which preserve insertion order) are modelled as
  association lists built by `addGenePartner` / `addModelPartner`; the
  Python `set` of partners is a duplicate-free list built by `addToSet`.
* Exceptional control flow of `main` is made explicit in `RunResult`:
  `usageError` / `schemaError` are the two `sys.exit(1)` calls (lines
  27 and 79), `crash` is an uncaught exception, `success o` is a normal
  run writing the JSON object `o`.
-/

/-- Embedding of `str.lower()` as used on ASCII header names (line 65).
Python lowercases the ASCII letters of the header synonyms; `Char.toLower`
does exactly that on ASCII. -/
def pyLower (s : String) : String := ⟨s.data.map Char.toLower⟩

/-- Embedding of `c.lower().replace("_", "").replace(" ", "")` (line 65).
Replacing a single-character pattern by the empty string deletes each
occurrence of that character, i.e. filters it out. -/
def normalizeHeader (c : String) : String :=
  ⟨(pyLower c).data.filter (fun ch => !(ch == '_' || ch == ' '))⟩

/-- Embedding of `str.strip()` (lines 82, 87, 88, 95, 103, 104): remove
leading and trailing whitespace. -/
def pyStrip (s : String) : String :=
  ⟨((s.data.dropWhile Char.isWhitespace).reverse.dropWhile Char.isWhitespace).reverse⟩

/-- Split a character list at the first occurrence of `sep`, returning the
part before and the part after.  This is Python's `s.split(sep, 1)` in the
case where `sep` occurs in `s` (`none` means no occurrence). -/
def splitOnceCh (sep : List Char) : List Char → Option (List Char × List Char)
  | [] => none
  | c :: rest =>
    if sep.isPrefixOf (c :: rest) then some ([], (c :: rest).drop sep.length)
    else
      match splitOnceCh sep rest with
      | some pq => some (c :: pq.1, pq.2)
      | none => none

/-- String version of `splitOnceCh`: `splitOnce sep s = some (a, b)` iff
`sep` occurs in `s`, split at the first occurrence (`s.split(sep, 1)`). -/
def splitOnce (sep s : String) : Option (String × String) :=
  (splitOnceCh sep.data s.data).map (fun pq => (⟨pq.1⟩, ⟨pq.2⟩))

/-- Embedding of lines 90-93: `if " (" in g: g = g.split(" (")[0].strip()`,
stripping a parenthesized Ensembl annotation from a gene name. -/
def stripEnsembl (g : String) : String :=
  match splitOnce " (" g with
  | some pq => pyStrip pq.1
  | none => g

/-- Embedding of lines 96-102: split a combined fusion name on `"--"` if it
occurs, else on `"-"` if it occurs, else fail (the row is skipped).  The
split is `split(sep, 1)`: at the first occurrence only. -/
def splitFusionName (fname : String) : Option (String × String) :=
  match splitOnce "--" fname with
  | some pq => some pq
  | none => splitOnce "-" fname

/-- The identifier-column synonym tuple of line 54, matched by exact
(case-sensitive) string equality. -/
def modelColSynonyms : List String := ["ModelID", "DepMap_ID", "CellLineID", "ModelId"]

/-- Normalized synonyms for the first gene column (line 66). -/
def gene1Synonyms : List String := ["leftgene", "gene1", "genea", "leftgenename"]

/-- Normalized synonyms for the second gene column (line 68). -/
def gene2Synonyms : List String := ["rightgene", "gene2", "geneb", "rightgenename"]

/-- Normalized synonyms for the combined fusion-name column (line 70). -/
def fusionNameSynonyms : List String := ["fusionname", "fusion", "name"]

/-- Embedding of the `for c in cols: if c in (...): model_col = c; break`
loop (lines 53-56): the first column literally contained in `syns`. -/
def findSynonym (syns : List String) : List String → Option String
  | [] => none
  | c :: rest => if c ∈ syns then some c else findSynonym syns rest

/-- State of the gene-column detection loop (line 63):
`gene1_col`, `gene2_col`, `fusion_name_col`. -/
structure GeneCols where
  gene1 : Option String
  gene2 : Option String
  fname : Option String
deriving DecidableEq

/-- One iteration of the detection loop (lines 64-71): normalize the
header and assign it to the first role whose synonym list contains it.
The loop has no `break`, so a later matching column overwrites an
earlier one. -/
def geneColStep (acc : GeneCols) (c : String) : GeneCols :=
  let cl := normalizeHeader c
  if cl ∈ gene1Synonyms then { acc with gene1 := some c }
  else if cl ∈ gene2Synonyms then { acc with gene2 := some c }
  else if cl ∈ fusionNameSynonyms then { acc with fname := some c }
  else acc

/-- The full detection loop of lines 63-71. -/
def detectGeneCols (cols : List String) : GeneCols :=
  cols.foldl geneColStep ⟨none, none, none⟩

/-- The resolved column roles after lines 52-79. -/
structure ColConfig where
  modelCol : String
  gene1Col : Option String
  gene2Col : Option String
  fnameCol : Option String
deriving DecidableEq

/-- Result of the schema-detection phase (lines 48-79). -/
inductive SchemaResult where
  | crash
  | schemaError
  | ok (cfg : ColConfig)
deriving DecidableEq

/-- Lines 52-79 for a non-empty header list: the identifier column is
the first exact synonym match, falling back to the first column
(line 59); the script prints an error and exits with status 1 when
neither both gene columns nor a fusion-name column were detected
(lines 74-79, `schemaError`). -/
def detectColumnsCore (c0 : String) (cs : List String) : SchemaResult :=
  let modelCol := (findSynonym modelColSynonyms (c0 :: cs)).getD c0
  let gc := detectGeneCols (c0 :: cs)
  match gc.gene1, gc.gene2 with
  | some g1c, some g2c => SchemaResult.ok ⟨modelCol, some g1c, some g2c, gc.fname⟩
  | _, _ =>
    match gc.fname with
    | some fc => SchemaResult.ok ⟨modelCol, gc.gene1, gc.gene2, some fc⟩
    | none => SchemaResult.schemaError

/-- Embedding of lines 48-79.  `fieldnames = none` models
`reader.fieldnames is None` (empty input file): iterating `None` at line
53 raises `TypeError`, hence `crash`.  An empty header list crashes at
`cols[0]` (line 59, `IndexError`).  Otherwise detection proceeds on the
non-empty header list. -/
def detectColumns : Option (List String) → SchemaResult
  | none => SchemaResult.crash
  | some [] => SchemaResult.crash
  | some (c0 :: cs) => detectColumnsCore c0 cs

/-- A fusion event `(model_id, g1, g2)` as appended at line 111. -/
structure Fusion where
  model : String
  g1 : String
  g2 : String
deriving DecidableEq

/-- Embedding of lines 86-106: extract the raw gene pair of one row.
With both gene columns present the two cells are stripped of whitespace
and of a parenthesized annotation; otherwise, with a fusion-name column,
the combined name is split and both parts stripped; otherwise the row
yields nothing. -/
def extractPair (cfg : ColConfig) (row : String → String) : Option (String × String) :=
  match cfg.gene1Col, cfg.gene2Col with
  | some c1, some c2 =>
    some (stripEnsembl (pyStrip (row c1)), stripEnsembl (pyStrip (row c2)))
  | _, _ =>
    match cfg.fnameCol with
    | some fc =>
      match splitFusionName (pyStrip (row fc)) with
      | some pq => some (pyStrip pq.1, pyStrip pq.2)
      | none => none
    | none => none

/-- Embedding of lines 81-111: one iteration of the row loop.  Rows whose
(stripped) identifier is not a valid cell line are skipped (line 83), as
are rows with an empty gene on either side (line 108). -/
def extractFusion (cfg : ColConfig) (valid : List String) (row : String → String) :
    Option Fusion :=
  let modelId := pyStrip (row cfg.modelCol)
  if modelId ∈ valid then
    match extractPair cfg row with
    | some pq => if pq.1 = "" ∨ pq.2 = "" then none else some ⟨modelId, pq.1, pq.2⟩
    | none => none
  else none

/-- The full row loop (lines 81-111): the `fusions` list. -/
def processRows (cfg : ColConfig) (valid : List String) (rows : List (String → String)) :
    List Fusion :=
  rows.filterMap (extractFusion cfg valid)

/-- Python `set.add` on a set modelled as a duplicate-free list
(line 120/121). -/
def addToSet (l : List String) (p : String) : List String :=
  if p ∈ l then l else l ++ [p]

/-- `gene_partners[g][m].add(p)` restricted to one gene: update the inner
`defaultdict(set)` mapping cell line to partner set (lines 117-121).
Insertion order of keys is preserved, as for a Python dict. -/
def addModelPartner : List (String × List String) → String → String → List (String × List String)
  | [], m, p => [(m, [p])]
  | (m', ps) :: rest, m, p =>
    if m' = m then (m', addToSet ps p) :: rest
    else (m', ps) :: addModelPartner rest m p

/-- `gene_partners[g][m].add(p)` (lines 117-121): update the outer
`defaultdict(lambda: defaultdict(set))`. -/
def addGenePartner :
    List (String × List (String × List String)) → String → String → String →
      List (String × List (String × List String))
  | [], g, m, p => [(g, [(m, [p])])]
  | (g', pm) :: rest, g, m, p =>
    if g' = g then (g', addModelPartner pm m p) :: rest
    else (g', pm) :: addGenePartner rest g m p

/-- Embedding of lines 117-121: index every fusion event under both of
its genes. -/
def buildGenePartners (fusions : List Fusion) :
    List (String × List (String × List String)) :=
  fusions.foldl
    (fun gp e => addGenePartner (addGenePartner gp e.g1 e.model e.g2) e.g2 e.model e.g1) []

/-- `MIN_CELL_LINES` (line 21). -/
def MIN_CELL_LINES : Nat := 3

/-- Embedding of lines 123-128: keep the genes whose cell-line map has at
least `minCL` entries. -/
def filterGenes (minCL : Nat) (gp : List (String × List (String × List String))) :
    List (String × List (String × List String)) :=
  gp.filter (fun x => decide (minCL ≤ x.2.length))

/-- Association-list lookup (Python `d[k]` / `k in d`), first match. -/
def alookup {V : Type} : List (String × V) → String → Option V
  | [], _ => none
  | (k', v) :: rest, k => if k' = k then some v else alookup rest k

/-- One entry of `gene_data` (lines 158-167).  `counts0` is an `Int`
because line 155 computes it by subtraction. -/
structure GeneEntry where
  translocations : List (String × Nat)
  partners : List (String × List String)
  counts0 : Int
  counts1 : Nat
  counts2 : Nat
  total_translocated : Nat
deriving DecidableEq

/-- Code-point lexicographic order on character lists: Python's `<=` on
strings, which `sorted` uses. -/
def lexLe : List Char → List Char → Bool
  | [], _ => true
  | _ :: _, [] => false
  | a :: as, b :: bs =>
    if a.toNat < b.toNat then true
    else if a.toNat = b.toNat then lexLe as bs
    else false

/-- Python string comparison `a <= b` (code-point lexicographic). -/
def strLe (a b : String) : Bool := lexLe a.data b.data

/-- Insert into a sorted list of strings (helper for `sortStrings`). -/
def insertStr (x : String) : List String → List String
  | [] => [x]
  | y :: ys => if strLe x y then x :: y :: ys else y :: insertStr x ys

/-- Embedding of Python `sorted` on strings (lines 133, 150): insertion
sort by code-point order.  Stability is irrelevant here since equal
strings are identical. -/
def sortStrings : List String → List String
  | [] => []
  | x :: xs => insertStr x (sortStrings xs)

/-- Embedding of lines 137-167 for one retained gene: its cell-line map
`cellData` becomes the per-cell partner counts, sorted partner lists and
three-bucket histogram.  `bucket = str(min(n_partners, 2))` (line 151)
sends a cell line with one partner to bucket `"1"` and one with two or
more to bucket `"2"`; line 156 then overwrites bucket `"0"` with
`len(valid_cell_lines) - total_translocated`. -/
def mkGeneEntry (validCard : Nat) (cellData : List (String × List String)) : GeneEntry :=
  { translocations := cellData.map (fun x => (x.1, x.2.length)),
    partners := cellData.map (fun x => (x.1, sortStrings x.2)),
    counts0 := (validCard : Int) - (cellData.length : Int),
    counts1 := (cellData.filter (fun x => decide (min x.2.length 2 = 1))).length,
    counts2 := (cellData.filter (fun x => decide (min x.2.length 2 = 2))).length,
    total_translocated := cellData.length }

/-- The serialized output object (lines 169-173). -/
structure Output where
  genes : List String
  geneCounts : List (String × Nat)
  geneData : List (String × GeneEntry)
deriving DecidableEq

/-- Embedding of lines 123-173: filter by the threshold, sort the gene
names, and build `geneCounts` and `geneData` by iterating the sorted
names (lines 137-167). -/
def buildOutput (minCL : Nat) (valid : List String) (fusions : List Fusion) : Output :=
  let filtered := filterGenes minCL (buildGenePartners fusions)
  let genesSorted := sortStrings (filtered.map Prod.fst)
  let validCard := valid.dedup.length
  { genes := genesSorted,
    geneCounts := genesSorted.map (fun g => (g, ((alookup filtered g).getD []).length)),
    geneData :=
      genesSorted.map (fun g => (g, mkGeneEntry validCard ((alookup filtered g).getD []))) }

/-- Observable outcome of one run of `main`. -/
inductive RunResult where
  | usageError
  | schemaError
  | crash
  | success (o : Output)
deriving DecidableEq

/-- Embedding of `main` (lines 24-180).  `argv` includes the program name
(`sys.argv`), `valid` is `metadata["cellLines"]`, `fieldnames` is
`reader.fieldnames`, `rows` the data rows. -/
def runMain (argv : List String) (valid : List String) (fieldnames : Option (List String))
    (rows : List (String → String)) : RunResult :=
  if argv.length < 2 then RunResult.usageError
  else
    match detectColumns fieldnames with
    | SchemaResult.crash => RunResult.crash
    | SchemaResult.schemaError => RunResult.schemaError
    | SchemaResult.ok cfg =>
      RunResult.success (buildOutput MIN_CELL_LINES valid (processRows cfg valid rows))

/-- `cols` contains a header whose normalized form is in `syns`. -/
def hasHeaderIn (syns cols : List String) : Prop :=
  ∃ c ∈ cols, normalizeHeader c ∈ syns

/-- Gene `p` is recorded as a partner of gene `g` for cell line `c` in
the serialized output `o`. -/
def partnerRecorded (o : Output) (g c p : String) : Bool :=
  match alookup o.geneData g with
  | none => false
  | some e =>
    match alookup e.partners c with
    | none => false
    | some l => decide (p ∈ l)

/-- A data row for the `ModelID`/`LeftGene`/`RightGene` schema. -/
def mkRow3 (m g1 g2 : String) : String → String :=
  fun c => if c = "ModelID" then m else if c = "LeftGene" then g1
           else if c = "RightGene" then g2 else ""

/-- A data row for the `ModelID`/`FusionName` schema. -/
def mkRowF (m f : String) : String → String :=
  fun c => if c = "ModelID" then m else if c = "FusionName" then f else ""

/-- The column configuration detected for header
`ModelID,LeftGene,RightGene`. -/
def geneCfg : ColConfig := ⟨"ModelID", some "LeftGene", some "RightGene", none⟩

/-- The column configuration detected for header `ModelID,FusionName`. -/
def fusionCfg : ColConfig := ⟨"ModelID", none, none, some "FusionName"⟩

/-- Concrete valid-cell-line universe used by the witnesses. -/
def demoValid : List String := ["ACH-1", "ACH-2", "ACH-3"]

/-- Three rows giving gene `BCR` (and `ABL1`) fusions in three distinct
cell lines, so that both genes pass the `MIN_CELL_LINES = 3` filter. -/
def demoRows : List (String → String) :=
  [mkRow3 "ACH-1" "BCR" "ABL1", mkRow3 "ACH-2" "BCR" "ABL1", mkRow3 "ACH-3" "BCR" "ABL1"]

/-- Header used by the witness runs. -/
def demoHeader : Option (List String) := some ["ModelID", "LeftGene", "RightGene"]

/-- The output object of the witness run. -/
def demoOut : Output := buildOutput MIN_CELL_LINES demoValid (processRows geneCfg demoValid demoRows)

/-- The `geneData` entry for gene `BCR` in the witness run. -/
def demoEntry : GeneEntry :=
  { translocations := [("ACH-1", 1), ("ACH-2", 1), ("ACH-3", 1)],
    partners := [("ACH-1", ["ABL1"]), ("ACH-2", ["ABL1"]), ("ACH-3", ["ABL1"])],
    counts0 := 0, counts1 := 3, counts2 := 0, total_translocated := 3 }

/-- Valid universe of the concrete example in the specification. -/
def c8Valid : List String := ["ACH-1", "ACH-2", "ACH-3"]

/-- The three concrete input rows of the specification's example. -/
def c8Rows : List (String → String) :=
  [mkRow3 "ACH-1" "BCR (ENSG1)" "ABL1", mkRow3 "ACH-1" "BCR" "ABL1",
   mkRow3 "ACH-2" "BCR" "ABL1"]

/-- The example's output, built with the threshold constant set to 1. -/
def c8Out : Output := buildOutput 1 c8Valid (processRows geneCfg c8Valid c8Rows)


/-! ## Lemmas about splitting at the first occurrence of a separator -/

theorem splitOnceCh_sound {sep : List Char} : ∀ {s p q : List Char},
    splitOnceCh sep s = some (p, q) → s = p ++ sep ++ q := by
  intro s
  induction s with
  | nil => intro p q h; simp [splitOnceCh] at h
  | cons c rest ih =>
    intro p q h
    rw [splitOnceCh] at h
    by_cases hp : sep.isPrefixOf (c :: rest)
    · rw [if_pos hp] at h
      obtain ⟨t, ht⟩ := List.isPrefixOf_iff_prefix.mp hp
      simp only [Option.some.injEq, Prod.mk.injEq] at h
      obtain ⟨hp1, hq1⟩ := h
      subst hp1
      rw [← ht, List.drop_left] at hq1
      subst hq1
      simpa using ht.symm
    · rw [if_neg hp] at h
      cases heq : splitOnceCh sep rest with
      | none => rw [heq] at h; simp at h
      | some pq =>
        rw [heq] at h
        simp only [Option.some.injEq, Prod.mk.injEq] at h
        obtain ⟨hp1, hq1⟩ := h
        subst hp1; subst hq1
        have := ih heq
        simp [this]

theorem splitOnceCh_none {sep : List Char} (hne : sep ≠ []) : ∀ {s : List Char},
    splitOnceCh sep s = none → ∀ p q : List Char, s ≠ p ++ sep ++ q := by
  intro s
  induction s with
  | nil =>
    intro _ p q habs
    have h2 := habs.symm
    simp only [List.append_assoc, List.append_eq_nil] at h2
    exact hne h2.2.1
  | cons c rest ih =>
    intro h p q habs
    rw [splitOnceCh] at h
    by_cases hp : sep.isPrefixOf (c :: rest)
    · rw [if_pos hp] at h; simp at h
    · rw [if_neg hp] at h
      cases heq : splitOnceCh sep rest with
      | some pq => rw [heq] at h; simp at h
      | none =>
        cases p with
        | nil =>
          apply hp
          apply List.isPrefixOf_iff_prefix.mpr
          exact ⟨q, by simpa using habs.symm⟩
        | cons c' p' =>
          simp only [List.cons_append, List.cons.injEq] at habs
          exact ih heq p' q habs.2

theorem splitOnceCh_min {sep : List Char} : ∀ {s p q : List Char},
    splitOnceCh sep s = some (p, q) →
    ∀ x y : List Char, s = x ++ sep ++ y → p.length ≤ x.length := by
  intro s
  induction s with
  | nil => intro p q h; simp [splitOnceCh] at h
  | cons c rest ih =>
    intro p q h x y hxy
    rw [splitOnceCh] at h
    by_cases hp : sep.isPrefixOf (c :: rest)
    · rw [if_pos hp] at h
      simp only [Option.some.injEq, Prod.mk.injEq] at h
      rw [← h.1]
      simp
    · rw [if_neg hp] at h
      cases heq : splitOnceCh sep rest with
      | none => rw [heq] at h; simp at h
      | some pq =>
        rw [heq] at h
        simp only [Option.some.injEq, Prod.mk.injEq] at h
        cases x with
        | nil =>
          exfalso
          apply hp
          apply List.isPrefixOf_iff_prefix.mpr
          exact ⟨y, by simpa using hxy.symm⟩
        | cons c' x' =>
          simp only [List.cons_append, List.cons.injEq] at hxy
          have := ih heq x' y hxy.2
          rw [← h.1]
          simpa using this

theorem splitOnce_sound {sep s a b : String} (h : splitOnce sep s = some (a, b)) :
    s = a ++ sep ++ b := by
  rw [splitOnce] at h
  cases heq : splitOnceCh sep.data s.data with
  | none => rw [heq] at h; simp at h
  | some pq =>
    rw [heq] at h
    simp only [Option.map_some', Option.some.injEq, Prod.mk.injEq] at h
    apply String.ext
    have hs := splitOnceCh_sound heq
    rw [hs, ← h.1, ← h.2]
    simp

theorem splitOnce_none {sep s : String} (hne : sep ≠ "") (h : splitOnce sep s = none) :
    ∀ a b : String, s ≠ a ++ sep ++ b := by
  intro a b habs
  rw [splitOnce] at h
  cases heq : splitOnceCh sep.data s.data with
  | some pq => rw [heq] at h; simp at h
  | none =>
    have hned : sep.data ≠ [] := by
      intro hd
      exact hne (String.ext hd)
    apply splitOnceCh_none hned heq a.data b.data
    rw [habs]
    simp

theorem splitOnce_min {sep s a b : String} (h : splitOnce sep s = some (a, b)) :
    ∀ x y : String, s = x ++ sep ++ y → a.length ≤ x.length := by
  intro x y hxy
  rw [splitOnce] at h
  cases heq : splitOnceCh sep.data s.data with
  | none => rw [heq] at h; simp at h
  | some pq =>
    rw [heq] at h
    simp only [Option.map_some', Option.some.injEq, Prod.mk.injEq] at h
    have : s.data = x.data ++ sep.data ++ y.data := by rw [hxy]; simp
    have hmin := splitOnceCh_min heq x.data y.data this
    show a.data.length ≤ x.data.length
    rw [← h.1]
    exact hmin

/-! ## Lemmas about the string insertion sort -/

theorem lexLe_total : ∀ as bs : List Char, lexLe as bs = true ∨ lexLe bs as = true := by
  intro as
  induction as with
  | nil => intro bs; left; rfl
  | cons a as ih =>
    intro bs
    cases bs with
    | nil => right; rfl
    | cons b bs =>
      rcases Nat.lt_trichotomy a.toNat b.toNat with hlt | heq | hgt
      · left; simp [lexLe, hlt]
      · rcases ih bs with h | h
        · left; simp [lexLe, heq, Nat.lt_irrefl, h]
        · right; simp [lexLe, heq.symm, Nat.lt_irrefl, h]
      · right; simp [lexLe, hgt]

theorem lexLe_trans : ∀ as bs cs : List Char,
    lexLe as bs = true → lexLe bs cs = true → lexLe as cs = true := by
  intro as
  induction as with
  | nil => intro bs cs _ _; rfl
  | cons a as ih =>
    intro bs cs hab hbc
    cases bs with
    | nil => simp [lexLe] at hab
    | cons b bs =>
      cases cs with
      | nil => simp [lexLe] at hbc
      | cons c cs =>
        rw [lexLe] at hab hbc ⊢
        split_ifs at hab hbc ⊢ with h1 h2 h3 h4 h5 h6 <;> try rfl
        all_goals try exact (ih bs cs hab hbc)
        all_goals omega

theorem mem_insertStr {a x : String} : ∀ {l : List String},
    a ∈ insertStr x l ↔ a = x ∨ a ∈ l := by
  intro l
  induction l with
  | nil => simp [insertStr]
  | cons y ys ih =>
    rw [insertStr]
    split_ifs with h
    · simp [or_assoc]
    · simp only [List.mem_cons, ih]
      tauto

theorem pairwise_insertStr {x : String} : ∀ {l : List String},
    List.Pairwise (fun a b => strLe a b = true) l →
    List.Pairwise (fun a b => strLe a b = true) (insertStr x l) := by
  intro l
  induction l with
  | nil => intro _; simp [insertStr]
  | cons y ys ih =>
    intro hp
    rw [List.pairwise_cons] at hp
    rw [insertStr]
    split_ifs with h
    · refine List.Pairwise.cons ?_ (List.Pairwise.cons hp.1 hp.2)
      intro z hz
      rcases List.mem_cons.mp hz with hz | hz
      · rw [hz]; exact h
      · exact lexLe_trans _ _ _ h (hp.1 z hz)
    · refine List.Pairwise.cons ?_ (ih hp.2)
      intro z hz
      rcases mem_insertStr.mp hz with hz | hz
      · rw [hz]
        rcases lexLe_total x.data y.data with ht | ht
        · exact absurd ht h
        · exact ht
      · exact hp.1 z hz

theorem pairwise_sortStrings : ∀ l : List String,
    List.Pairwise (fun a b => strLe a b = true) (sortStrings l) := by
  intro l
  induction l with
  | nil => simp [sortStrings]
  | cons x xs ih => exact pairwise_insertStr ih

theorem mem_sortStrings {a : String} : ∀ {l : List String},
    a ∈ sortStrings l ↔ a ∈ l := by
  intro l
  induction l with
  | nil => simp [sortStrings]
  | cons x xs ih =>
    rw [sortStrings, mem_insertStr, ih]
    simp

/-! ## Lemmas about association-list lookup -/

theorem alookup_none_iff {V : Type} : ∀ (l : List (String × V)) (k : String),
    alookup l k = none ↔ k ∉ l.map Prod.fst := by
  intro l
  induction l with
  | nil => intro k; simp [alookup]
  | cons x rest ih =>
    intro k
    obtain ⟨k', v⟩ := x
    rw [alookup]
    split_ifs with h
    · subst h; simp
    · simp only [List.map_cons, List.mem_cons, ih]
      constructor
      · intro hk hor
        rcases hor with hor | hor
        · exact h hor.symm
        · exact hk hor
      · intro hk
        exact fun hm => hk (Or.inr hm)

theorem alookup_some_mem {V : Type} : ∀ {l : List (String × V)} {k : String} {v : V},
    alookup l k = some v → (k, v) ∈ l := by
  intro l
  induction l with
  | nil => intro k v h; simp [alookup] at h
  | cons x rest ih =>
    intro k v h
    obtain ⟨k', v'⟩ := x
    rw [alookup] at h
    split_ifs at h with hk
    · simp only [Option.some.injEq] at h
      subst hk; subst h
      exact List.mem_cons_self _ _
    · exact List.mem_cons_of_mem _ (ih h)

theorem alookup_of_mem_nodup {V : Type} : ∀ {l : List (String × V)} {k : String} {v : V},
    (l.map Prod.fst).Nodup → (k, v) ∈ l → alookup l k = some v := by
  intro l
  induction l with
  | nil => intro k v _ h; simp at h
  | cons x rest ih =>
    intro k v hnd hm
    obtain ⟨k', v'⟩ := x
    simp only [List.map_cons, List.nodup_cons] at hnd
    rcases List.mem_cons.mp hm with hm | hm
    · simp only [Prod.mk.injEq] at hm
      rw [alookup, if_pos hm.1.symm, hm.2]
    · rw [alookup]
      split_ifs with hk
      · exfalso
        apply hnd.1
        rw [hk]
        exact List.mem_map_of_mem Prod.fst hm
      · exact ih hnd.2 hm

theorem alookup_graph {V : Type} (h : String → V) : ∀ (l : List String) (k : String),
    alookup (l.map (fun g => (g, h g))) k = if k ∈ l then some (h k) else none := by
  intro l
  induction l with
  | nil => intro k; simp [alookup]
  | cons g gs ih =>
    intro k
    simp only [List.map_cons, alookup]
    split_ifs with h1 h2 h2
    · subst h1; rfl
    · exact absurd (Or.inl h1.symm) (by simpa using h2)
    · rw [ih, if_pos]
      rcases List.mem_cons.mp h2 with hc | hc
      · exact absurd hc.symm h1
      · exact hc
    · rw [ih, if_neg]
      intro hc
      exact h2 (List.mem_cons_of_mem _ hc)

theorem alookup_mapValues {V W : Type} (f : V → W) : ∀ (l : List (String × V)) (k : String),
    alookup (l.map (fun x => (x.1, f x.2))) k = (alookup l k).map f := by
  intro l
  induction l with
  | nil => intro k; simp [alookup]
  | cons x rest ih =>
    intro k
    obtain ⟨k', v⟩ := x
    simp only [List.map_cons, alookup]
    split_ifs with h
    · rfl
    · exact ih k

/-! ## Lemmas about the partner-index construction -/

theorem mem_addToSet_self (l : List String) (p : String) : p ∈ addToSet l p := by
  rw [addToSet]
  split_ifs with h
  · exact h
  · simp

theorem mem_addToSet_of_mem {l : List String} {q : String} (p : String) (h : q ∈ l) :
    q ∈ addToSet l p := by
  rw [addToSet]
  split_ifs with h'
  · exact h
  · simp [h]

theorem addToSet_ne_nil (l : List String) (p : String) : addToSet l p ≠ [] := by
  rw [addToSet]
  split_ifs with h
  · intro hc; subst hc; simp at h
  · simp

theorem alookup_addModelPartner :
    ∀ (pm : List (String × List String)) (m p k : String),
      alookup (addModelPartner pm m p) k =
        if k = m then some (addToSet ((alookup pm m).getD []) p) else alookup pm k := by
  intro pm
  induction pm with
  | nil =>
    intro m p k
    by_cases h : k = m
    · subst h; simp [addModelPartner, alookup, addToSet]
    · simp [addModelPartner, alookup, h, Ne.symm h]
  | cons x rest ih =>
    intro m p k
    obtain ⟨m', ps⟩ := x
    rw [addModelPartner]
    by_cases h1 : m' = m
    · subst h1
      by_cases hk : k = m'
      · subst hk
        simp [alookup]
      · simp [alookup, hk, Ne.symm hk]
    · rw [if_neg h1]
      by_cases hk : k = m'
      · subst hk
        simp [alookup, h1]
      · simp [alookup, Ne.symm hk, h1, ih]

theorem keys_addModelPartner :
    ∀ (pm : List (String × List String)) (m p : String),
      (addModelPartner pm m p).map Prod.fst =
        if m ∈ pm.map Prod.fst then pm.map Prod.fst else pm.map Prod.fst ++ [m] := by
  intro pm
  induction pm with
  | nil => intro m p; simp [addModelPartner]
  | cons x rest ih =>
    intro m p
    obtain ⟨m', ps⟩ := x
    rw [addModelPartner]
    by_cases h1 : m' = m
    · subst h1
      rw [if_pos rfl]
      simp
    · rw [if_neg h1]
      simp only [List.map_cons]
      rw [ih]
      by_cases h2 : m ∈ rest.map Prod.fst
      · rw [if_pos h2, if_pos (List.mem_cons_of_mem _ h2)]
      · rw [if_neg h2,
          if_neg (fun hc => (List.mem_cons.mp hc).elim (fun he => h1 he.symm) h2)]
        simp

theorem values_addModelPartner {pm : List (String × List String)} {m p : String}
    (h : ∀ x ∈ pm, x.2 ≠ []) : ∀ x ∈ addModelPartner pm m p, x.2 ≠ [] := by
  induction pm with
  | nil =>
    intro x hx
    rw [addModelPartner] at hx
    rcases List.mem_singleton.mp hx with rfl
    simp
  | cons y rest ih =>
    intro x hx
    obtain ⟨m', ps⟩ := y
    rw [addModelPartner] at hx
    split_ifs at hx with h1
    · rcases List.mem_cons.mp hx with rfl | hx
      · exact addToSet_ne_nil ps p
      · exact h x (List.mem_cons_of_mem _ hx)
    · rcases List.mem_cons.mp hx with rfl | hx
      · exact h (m', ps) (List.mem_cons_self _ _)
      · exact ih (fun z hz => h z (List.mem_cons_of_mem _ hz)) x hx

theorem fstmem_addModelPartner {valid : List String} {pm : List (String × List String)}
    {m p : String} (hm : m ∈ valid) (h : ∀ x ∈ pm, x.1 ∈ valid) :
    ∀ x ∈ addModelPartner pm m p, x.1 ∈ valid := by
  induction pm with
  | nil =>
    intro x hx
    rw [addModelPartner] at hx
    rcases List.mem_singleton.mp hx with rfl
    exact hm
  | cons y rest ih =>
    intro x hx
    obtain ⟨m', ps⟩ := y
    rw [addModelPartner] at hx
    split_ifs at hx with h1
    · rcases List.mem_cons.mp hx with rfl | hx
      · exact h (m', ps) (List.mem_cons_self _ _)
      · exact h x (List.mem_cons_of_mem _ hx)
    · rcases List.mem_cons.mp hx with rfl | hx
      · exact h (m', ps) (List.mem_cons_self _ _)
      · exact ih (fun z hz => h z (List.mem_cons_of_mem _ hz)) x hx

theorem nodup_keys_addModelPartner {pm : List (String × List String)} {m p : String}
    (h : (pm.map Prod.fst).Nodup) : ((addModelPartner pm m p).map Prod.fst).Nodup := by
  rw [keys_addModelPartner]
  split_ifs with h1
  · exact h
  · rw [List.nodup_append]
    exact ⟨h, List.nodup_singleton m, by simpa [List.disjoint_singleton] using h1⟩

theorem alookup_addGenePartner :
    ∀ (gp : List (String × List (String × List String))) (g m p k : String),
      alookup (addGenePartner gp g m p) k =
        if k = g then some (addModelPartner ((alookup gp g).getD []) m p)
        else alookup gp k := by
  intro gp
  induction gp with
  | nil =>
    intro g m p k
    by_cases h : k = g
    · subst h; simp [addGenePartner, alookup, addModelPartner, addToSet]
    · simp [addGenePartner, alookup, h, Ne.symm h]
  | cons x rest ih =>
    intro g m p k
    obtain ⟨g', pm⟩ := x
    rw [addGenePartner]
    by_cases h1 : g' = g
    · subst h1
      by_cases hk : k = g'
      · subst hk
        simp [alookup]
      · simp [alookup, hk, Ne.symm hk]
    · rw [if_neg h1]
      by_cases hk : k = g'
      · subst hk
        simp [alookup, h1]
      · simp [alookup, Ne.symm hk, h1, ih]

theorem keys_addGenePartner :
    ∀ (gp : List (String × List (String × List String))) (g m p : String),
      (addGenePartner gp g m p).map Prod.fst =
        if g ∈ gp.map Prod.fst then gp.map Prod.fst else gp.map Prod.fst ++ [g] := by
  intro gp
  induction gp with
  | nil => intro g m p; simp [addGenePartner]
  | cons x rest ih =>
    intro g m p
    obtain ⟨g', pm⟩ := x
    rw [addGenePartner]
    by_cases h1 : g' = g
    · subst h1
      rw [if_pos rfl]
      simp
    · rw [if_neg h1]
      simp only [List.map_cons]
      rw [ih]
      by_cases h2 : g ∈ rest.map Prod.fst
      · rw [if_pos h2, if_pos (List.mem_cons_of_mem _ h2)]
      · rw [if_neg h2,
          if_neg (fun hc => (List.mem_cons.mp hc).elim (fun he => h1 he.symm) h2)]
        simp

/-! ## Well-formedness of the partner index -/

/-- Well-formedness of one gene's cell-line map: distinct cell-line keys,
every key a valid cell line, every partner set non-empty. -/
def PMwf (valid : List String) (pm : List (String × List String)) : Prop :=
  (pm.map Prod.fst).Nodup ∧ ∀ x ∈ pm, x.1 ∈ valid ∧ x.2 ≠ []

/-- Well-formedness of the whole index: distinct gene keys and
well-formed cell-line maps. -/
def GPwf (valid : List String) (gp : List (String × List (String × List String))) : Prop :=
  (gp.map Prod.fst).Nodup ∧ ∀ x ∈ gp, PMwf valid x.2

theorem PMwf_addModelPartner {valid : List String} {pm : List (String × List String)}
    {m p : String} (h : PMwf valid pm) (hm : m ∈ valid) :
    PMwf valid (addModelPartner pm m p) := by
  refine ⟨nodup_keys_addModelPartner h.1, ?_⟩
  intro x hx
  refine ⟨fstmem_addModelPartner hm (fun z hz => (h.2 z hz).1) x hx, ?_⟩
  exact values_addModelPartner (fun z hz => (h.2 z hz).2) x hx

theorem PMwf_nil (valid : List String) : PMwf valid [] := by
  constructor
  · simp
  · intro x hx; simp at hx

theorem GPwf_addGenePartner {valid : List String}
    {gp : List (String × List (String × List String))} {g m p : String}
    (h : GPwf valid gp) (hm : m ∈ valid) : GPwf valid (addGenePartner gp g m p) := by
  constructor
  · rw [keys_addGenePartner]
    split_ifs with h1
    · exact h.1
    · rw [List.nodup_append]
      exact ⟨h.1, List.nodup_singleton g, by simpa [List.disjoint_singleton] using h1⟩
  · intro x hx
    have hmem : ∀ y ∈ gp, PMwf valid y.2 := h.2
    clear h
    induction gp with
    | nil =>
      rw [addGenePartner] at hx
      rcases List.mem_singleton.mp hx with rfl
      exact PMwf_addModelPartner (PMwf_nil valid) hm
    | cons y rest ih =>
      obtain ⟨g', pm⟩ := y
      rw [addGenePartner] at hx
      split_ifs at hx with h1
      · rcases List.mem_cons.mp hx with rfl | hx
        · exact PMwf_addModelPartner (hmem (g', pm) (List.mem_cons_self _ _)) hm
        · exact hmem x (List.mem_cons_of_mem _ hx)
      · rcases List.mem_cons.mp hx with rfl | hx
        · exact hmem (g', pm) (List.mem_cons_self _ _)
        · exact ih hx (fun z hz => hmem z (List.mem_cons_of_mem _ hz))

theorem GPwf_nil (valid : List String) : GPwf valid [] := by
  constructor
  · simp
  · intro x hx; simp at hx

theorem GPwf_buildGenePartners {valid : List String} {fusions : List Fusion}
    (h : ∀ e ∈ fusions, e.model ∈ valid) : GPwf valid (buildGenePartners fusions) := by
  rw [buildGenePartners]
  suffices hgen : ∀ gp, GPwf valid gp →
      GPwf valid (fusions.foldl
        (fun gp e => addGenePartner (addGenePartner gp e.g1 e.model e.g2) e.g2 e.model e.g1) gp) by
    exact hgen [] (GPwf_nil valid)
  induction fusions with
  | nil => intro gp hgp; exact hgp
  | cons f t ih =>
    intro gp hgp
    have hf : f.model ∈ valid := h f (List.mem_cons_self _ _)
    exact ih (fun e he => h e (List.mem_cons_of_mem _ he))
      (addGenePartner (addGenePartner gp f.g1 f.model f.g2) f.g2 f.model f.g1)
      (GPwf_addGenePartner (GPwf_addGenePartner hgp hf) hf)

theorem extractFusion_model {cfg : ColConfig} {valid : List String} {row : String → String}
    {e : Fusion} (h : extractFusion cfg valid row = some e) : e.model ∈ valid := by
  rw [extractFusion] at h
  split_ifs at h with h1
  · cases hp : extractPair cfg row with
    | none => rw [hp] at h; simp at h
    | some pq =>
      rw [hp] at h
      simp only at h
      split_ifs at h with h2
      rw [Option.some_inj] at h
      subst h
      exact h1

theorem processRows_model_mem {cfg : ColConfig} {valid : List String}
    {rows : List (String → String)} : ∀ e ∈ processRows cfg valid rows, e.model ∈ valid := by
  intro e he
  rw [processRows] at he
  obtain ⟨row, _, hrow⟩ := List.mem_filterMap.mp he
  exact extractFusion_model hrow

/-! ## Symmetric membership in the partner index -/

/-- Gene `p` is among the partners recorded for gene `g` and cell line
`m` in the index `gp`. -/
def memPartner (gp : List (String × List (String × List String))) (g m p : String) : Prop :=
  ∃ pm ps, alookup gp g = some pm ∧ alookup pm m = some ps ∧ p ∈ ps

theorem memPartner_addGenePartner_self
    (gp : List (String × List (String × List String))) (g m p : String) :
    memPartner (addGenePartner gp g m p) g m p := by
  refine ⟨addModelPartner ((alookup gp g).getD []) m p, addToSet ((alookup ((alookup gp g).getD []) m).getD []) p, ?_, ?_, ?_⟩
  · rw [alookup_addGenePartner, if_pos rfl]
  · rw [alookup_addModelPartner, if_pos rfl]
  · exact mem_addToSet_self _ _

theorem memPartner_addGenePartner_mono {gp : List (String × List (String × List String))}
    {g m p : String} (h : memPartner gp g m p) (g' m' p' : String) :
    memPartner (addGenePartner gp g' m' p') g m p := by
  obtain ⟨pm, ps, h1, h2, h3⟩ := h
  by_cases hg : g = g'
  · subst hg
    by_cases hm : m = m'
    · subst hm
      refine ⟨addModelPartner pm m p', addToSet ps p', ?_, ?_, ?_⟩
      · rw [alookup_addGenePartner, if_pos rfl, h1]
        simp
      · rw [alookup_addModelPartner, if_pos rfl, h2]
        simp
      · exact mem_addToSet_of_mem p' h3
    · refine ⟨addModelPartner pm m' p', ps, ?_, ?_, h3⟩
      · rw [alookup_addGenePartner, if_pos rfl, h1]
        simp
      · rw [alookup_addModelPartner, if_neg hm]
        exact h2
  · refine ⟨pm, ps, ?_, h2, h3⟩
    rw [alookup_addGenePartner, if_neg hg]
    exact h1

theorem memPartner_foldl {l : List Fusion} :
    ∀ {gp : List (String × List (String × List String))} {g m p : String},
      memPartner gp g m p →
      memPartner (l.foldl
        (fun gp e => addGenePartner (addGenePartner gp e.g1 e.model e.g2) e.g2 e.model e.g1) gp)
        g m p := by
  induction l with
  | nil => intro gp g m p h; exact h
  | cons f t ih =>
    intro gp g m p h
    exact ih (memPartner_addGenePartner_mono (memPartner_addGenePartner_mono h _ _ _) _ _ _)

theorem memPartner_build {fusions : List Fusion} :
    ∀ e ∈ fusions, memPartner (buildGenePartners fusions) e.g1 e.model e.g2 ∧
      memPartner (buildGenePartners fusions) e.g2 e.model e.g1 := by
  rw [buildGenePartners]
  suffices hgen : ∀ gp, ∀ e ∈ fusions,
      memPartner (fusions.foldl
        (fun gp e => addGenePartner (addGenePartner gp e.g1 e.model e.g2) e.g2 e.model e.g1) gp)
        e.g1 e.model e.g2 ∧
      memPartner (fusions.foldl
        (fun gp e => addGenePartner (addGenePartner gp e.g1 e.model e.g2) e.g2 e.model e.g1) gp)
        e.g2 e.model e.g1 by
    intro e he
    exact hgen [] e he
  induction fusions with
  | nil => intro gp e he; simp at he
  | cons f t ih =>
    intro gp e he
    simp only [List.foldl_cons]
    rcases List.mem_cons.mp he with rfl | he
    · constructor
      · exact memPartner_foldl
          (memPartner_addGenePartner_mono (memPartner_addGenePartner_self gp e.g1 e.model e.g2) _ _ _)
      · exact memPartner_foldl
          (memPartner_addGenePartner_self (addGenePartner gp e.g1 e.model e.g2) e.g2 e.model e.g1)
    · exact ih _ e he

/-! ## Counting lemmas for the bucket histogram -/

theorem bucket_split : ∀ {cellData : List (String × List String)},
    (∀ x ∈ cellData, x.2 ≠ []) →
    (cellData.filter (fun x => decide (min x.2.length 2 = 1))).length +
      (cellData.filter (fun x => decide (min x.2.length 2 = 2))).length = cellData.length := by
  intro cellData
  induction cellData with
  | nil => intro _; simp
  | cons x xs ih =>
    intro h
    have hx : x.2 ≠ [] := h x (List.mem_cons_self _ _)
    have hlen : 1 ≤ x.2.length := List.length_pos.mpr hx
    have ih' := ih (fun z hz => h z (List.mem_cons_of_mem _ hz))
    by_cases hc : min x.2.length 2 = 1
    · have hc2 : ¬ min x.2.length 2 = 2 := by omega
      rw [List.filter_cons, List.filter_cons, if_pos (by simpa using hc),
        if_neg (by simpa using hc2)]
      simp only [List.length_cons]
      omega
    · have hc2 : min x.2.length 2 = 2 := by omega
      rw [List.filter_cons, List.filter_cons, if_neg (by simpa using hc),
        if_pos (by simpa using hc2)]
      simp only [List.length_cons]
      omega

theorem length_eq_of_nodup_mem_iff : ∀ {l1 l2 : List String},
    l1.Nodup → l2.Nodup → (∀ a, a ∈ l1 ↔ a ∈ l2) → l1.length = l2.length := by
  intro l1
  induction l1 with
  | nil =>
    intro l2 _ _ h
    have : l2 = [] := by
      apply List.eq_nil_iff_forall_not_mem.mpr
      intro a ha
      simpa using (h a).mpr ha
    rw [this]
  | cons a t ih =>
    intro l2 h1 h2 h
    have hnd1 := List.nodup_cons.mp h1
    have ha2 : a ∈ l2 := (h a).mp (List.mem_cons_self _ _)
    have hmem : ∀ b, b ∈ t ↔ b ∈ l2.erase a := by
      intro b
      rw [h2.mem_erase_iff]
      constructor
      · intro hb
        refine ⟨?_, (h b).mp (List.mem_cons_of_mem _ hb)⟩
        intro hba
        exact hnd1.1 (hba ▸ hb)
      · intro hb
        rcases List.mem_cons.mp ((h b).mpr hb.2) with hba | hbt
        · exact absurd hba hb.1
        · exact hbt
    have hlen := ih hnd1.2 (h2.erase a) hmem
    have hpos := List.length_pos_of_mem ha2
    rw [List.length_cons, hlen, List.length_erase_of_mem ha2]
    omega

theorem absent_count {valid : List String} {cd : List (String × List String)}
    (hnd : (cd.map Prod.fst).Nodup) (hsub : ∀ x ∈ cd, x.1 ∈ valid) :
    (valid.dedup.filter (fun m => decide (alookup cd m = none))).length =
      valid.dedup.length - cd.length ∧ cd.length ≤ valid.dedup.length := by
  have hkeys : (valid.dedup.filter (fun m => decide (m ∈ cd.map Prod.fst))).length =
      (cd.map Prod.fst).length := by
    apply length_eq_of_nodup_mem_iff ((List.nodup_dedup valid).filter _) hnd
    intro a
    rw [List.mem_filter]
    constructor
    · intro ha
      simpa using ha.2
    · intro ha
      refine ⟨?_, by simpa using ha⟩
      obtain ⟨x, hx, hxa⟩ := List.mem_map.mp ha
      rw [List.mem_dedup, ← hxa]
      exact hsub x hx
  have hsplit := @List.length_eq_length_filter_add String valid.dedup
    (fun m => decide (m ∈ cd.map Prod.fst))
  have hcongr : valid.dedup.filter (fun m => !decide (m ∈ cd.map Prod.fst)) =
      valid.dedup.filter (fun m => decide (alookup cd m = none)) := by
    apply List.filter_congr
    intro m _
    cases halk : alookup cd m with
    | none =>
      have hnm : m ∉ cd.map Prod.fst := (alookup_none_iff cd m).mp halk
      simp [hnm]
    | some v =>
      have hm : m ∈ cd.map Prod.fst :=
        List.mem_map_of_mem Prod.fst (alookup_some_mem halk)
      simp [hm]
  rw [hcongr] at hsplit
  rw [List.length_map] at hkeys
  constructor
  · omega
  · have := List.length_filter_le (fun m => decide (m ∈ cd.map Prod.fst)) valid.dedup
    rw [hkeys] at this
    exact this

/-! ## Structure of the built output -/

theorem GPwf_filterGenes {valid : List String} {minCL : Nat}
    {gp : List (String × List (String × List String))} (h : GPwf valid gp) :
    GPwf valid (filterGenes minCL gp) := by
  constructor
  · exact ((List.filter_sublist gp).map Prod.fst).nodup h.1
  · intro x hx
    exact h.2 x (List.mem_of_mem_filter hx)

theorem alookup_geneData (minCL : Nat) (valid : List String) (fusions : List Fusion)
    (g : String) :
    alookup (buildOutput minCL valid fusions).geneData g =
      if g ∈ sortStrings ((filterGenes minCL (buildGenePartners fusions)).map Prod.fst)
      then some (mkGeneEntry valid.dedup.length
        ((alookup (filterGenes minCL (buildGenePartners fusions)) g).getD []))
      else none := by
  exact alookup_graph _ _ g

theorem alookup_geneCounts (minCL : Nat) (valid : List String) (fusions : List Fusion)
    (g : String) :
    alookup (buildOutput minCL valid fusions).geneCounts g =
      if g ∈ sortStrings ((filterGenes minCL (buildGenePartners fusions)).map Prod.fst)
      then some ((alookup (filterGenes minCL (buildGenePartners fusions)) g).getD []).length
      else none := by
  exact alookup_graph _ _ g

theorem cd_wf {valid : List String} {minCL : Nat} {fusions : List Fusion}
    (h : ∀ e ∈ fusions, e.model ∈ valid) (g : String) :
    PMwf valid ((alookup (filterGenes minCL (buildGenePartners fusions)) g).getD []) := by
  cases heq : alookup (filterGenes minCL (buildGenePartners fusions)) g with
  | none => simp [PMwf_nil]
  | some pm =>
    simp only [Option.getD_some]
    exact (GPwf_filterGenes (GPwf_buildGenePartners h)).2 (g, pm) (alookup_some_mem heq)

/-! ## Characterization of column detection -/

theorem findSynonym_none_iff (syns : List String) : ∀ cols : List String,
    findSynonym syns cols = none ↔ ∀ c ∈ cols, c ∉ syns := by
  intro cols
  induction cols with
  | nil => simp [findSynonym]
  | cons c cs ih =>
    rw [findSynonym]
    split_ifs with h
    · simp [h]
    · rw [ih]
      simp [h]

theorem findSynonym_some (syns : List String) : ∀ {cols : List String} {c : String},
    findSynonym syns cols = some c → c ∈ syns ∧ c ∈ cols := by
  intro cols
  induction cols with
  | nil => intro c h; simp [findSynonym] at h
  | cons c0 cs ih =>
    intro c h
    rw [findSynonym] at h
    split_ifs at h with h0
    · rw [Option.some_inj] at h
      subst h
      exact ⟨h0, List.mem_cons_self _ _⟩
    · obtain ⟨h1, h2⟩ := ih h
      exact ⟨h1, List.mem_cons_of_mem _ h2⟩

theorem gene12_disj : ∀ s ∈ gene1Synonyms, s ∉ gene2Synonyms := by decide

theorem gene1f_disj : ∀ s ∈ gene1Synonyms, s ∉ fusionNameSynonyms := by decide

theorem gene2f_disj : ∀ s ∈ gene2Synonyms, s ∉ fusionNameSynonyms := by decide

theorem foldl_geneCols_gene1 : ∀ (cols : List String) (acc : GeneCols),
    (cols.foldl geneColStep acc).gene1 = none ↔
      acc.gene1 = none ∧ ∀ c ∈ cols, normalizeHeader c ∉ gene1Synonyms := by
  intro cols
  induction cols with
  | nil => intro acc; simp
  | cons c cs ih =>
    intro acc
    simp only [List.foldl_cons]
    rw [ih]
    by_cases h1 : normalizeHeader c ∈ gene1Synonyms
    · simp only [geneColStep, if_pos h1]
      constructor
      · intro h; exact absurd h.1 (by simp)
      · intro h; exact absurd h1 (h.2 c (List.mem_cons_self _ _))
    · have hstep : (geneColStep acc c).gene1 = acc.gene1 := by
        simp only [geneColStep, if_neg h1]
        split_ifs <;> rfl
      rw [hstep]
      simp [List.forall_mem_cons, h1]

theorem foldl_geneCols_gene2 : ∀ (cols : List String) (acc : GeneCols),
    (cols.foldl geneColStep acc).gene2 = none ↔
      acc.gene2 = none ∧ ∀ c ∈ cols, normalizeHeader c ∉ gene2Synonyms := by
  intro cols
  induction cols with
  | nil => intro acc; simp
  | cons c cs ih =>
    intro acc
    simp only [List.foldl_cons]
    rw [ih]
    by_cases h1 : normalizeHeader c ∈ gene1Synonyms
    · have hstep : (geneColStep acc c).gene2 = acc.gene2 := by
        simp only [geneColStep, if_pos h1]
      rw [hstep]
      simp [List.forall_mem_cons, gene12_disj (normalizeHeader c) h1]
    · by_cases h2 : normalizeHeader c ∈ gene2Synonyms
      · simp only [geneColStep, if_neg h1, if_pos h2]
        constructor
        · intro h; exact absurd h.1 (by simp)
        · intro h; exact absurd h2 (h.2 c (List.mem_cons_self _ _))
      · have hstep : (geneColStep acc c).gene2 = acc.gene2 := by
          simp only [geneColStep, if_neg h1, if_neg h2]
          split_ifs <;> rfl
        rw [hstep]
        simp [List.forall_mem_cons, h2]

theorem foldl_geneCols_fname : ∀ (cols : List String) (acc : GeneCols),
    (cols.foldl geneColStep acc).fname = none ↔
      acc.fname = none ∧ ∀ c ∈ cols, normalizeHeader c ∉ fusionNameSynonyms := by
  intro cols
  induction cols with
  | nil => intro acc; simp
  | cons c cs ih =>
    intro acc
    simp only [List.foldl_cons]
    rw [ih]
    by_cases h1 : normalizeHeader c ∈ gene1Synonyms
    · have hstep : (geneColStep acc c).fname = acc.fname := by
        simp only [geneColStep, if_pos h1]
      rw [hstep]
      simp [List.forall_mem_cons, gene1f_disj (normalizeHeader c) h1]
    · by_cases h2 : normalizeHeader c ∈ gene2Synonyms
      · have hstep : (geneColStep acc c).fname = acc.fname := by
          simp only [geneColStep, if_neg h1, if_pos h2]
        rw [hstep]
        simp [List.forall_mem_cons, gene2f_disj (normalizeHeader c) h2]
      · by_cases h3 : normalizeHeader c ∈ fusionNameSynonyms
        · simp only [geneColStep, if_neg h1, if_neg h2, if_pos h3]
          constructor
          · intro h; exact absurd h.1 (by simp)
          · intro h; exact absurd h3 (h.2 c (List.mem_cons_self _ _))
        · have hstep : (geneColStep acc c).fname = acc.fname := by
            simp only [geneColStep, if_neg h1, if_neg h2, if_neg h3]
          rw [hstep]
          simp [List.forall_mem_cons, h3]

theorem detectGeneCols_gene1_none (cols : List String) :
    (detectGeneCols cols).gene1 = none ↔ ∀ c ∈ cols, normalizeHeader c ∉ gene1Synonyms := by
  rw [detectGeneCols, foldl_geneCols_gene1]
  simp

theorem detectGeneCols_gene2_none (cols : List String) :
    (detectGeneCols cols).gene2 = none ↔ ∀ c ∈ cols, normalizeHeader c ∉ gene2Synonyms := by
  rw [detectGeneCols, foldl_geneCols_gene2]
  simp

theorem detectGeneCols_fname_none (cols : List String) :
    (detectGeneCols cols).fname = none ↔ ∀ c ∈ cols, normalizeHeader c ∉ fusionNameSynonyms := by
  rw [detectGeneCols, foldl_geneCols_fname]
  simp

theorem detectColumnsCore_schemaError (c0 : String) (cs : List String) :
    detectColumnsCore c0 cs = SchemaResult.schemaError ↔
      ((detectGeneCols (c0 :: cs)).gene1 = none ∨ (detectGeneCols (c0 :: cs)).gene2 = none) ∧
        (detectGeneCols (c0 :: cs)).fname = none := by
  rcases hgc : detectGeneCols (c0 :: cs) with ⟨g1, g2, f⟩
  simp only [detectColumnsCore, hgc]
  cases g1 <;> cases g2 <;> cases f <;> simp

theorem detectColumnsCore_modelCol {c0 : String} {cs : List String} {cfg : ColConfig}
    (h : detectColumnsCore c0 cs = SchemaResult.ok cfg) :
    cfg.modelCol = (findSynonym modelColSynonyms (c0 :: cs)).getD c0 := by
  rcases hgc : detectGeneCols (c0 :: cs) with ⟨g1, g2, f⟩
  simp only [detectColumnsCore, hgc] at h
  cases g1 <;> cases g2 <;> cases f
  any_goals simp at h
  all_goals exact (congrArg ColConfig.modelCol h).symm

/-! ## Control flow of the main routine -/

theorem runMain_usageError_iff (argv valid : List String) (fn : Option (List String))
    (rows : List (String → String)) :
    runMain argv valid fn rows = RunResult.usageError ↔ argv.length < 2 := by
  rw [runMain]
  split_ifs with h
  · simp [h]
  · cases hd : detectColumns fn <;> simp [h]

theorem runMain_schemaError_iff (argv valid : List String) (fn : Option (List String))
    (rows : List (String → String)) :
    runMain argv valid fn rows = RunResult.schemaError ↔
      2 ≤ argv.length ∧ detectColumns fn = SchemaResult.schemaError := by
  rw [runMain]
  split_ifs with h
  · constructor
    · intro hc; exact absurd hc (by simp)
    · rintro ⟨h2, _⟩; omega
  · cases hd : detectColumns fn <;> simp [hd]
    omega

theorem runMain_success_of {argv valid : List String} {fn : Option (List String)}
    {rows : List (String → String)} {cfg : ColConfig}
    (h2 : 2 ≤ argv.length) (hok : detectColumns fn = SchemaResult.ok cfg) :
    runMain argv valid fn rows =
      RunResult.success (buildOutput MIN_CELL_LINES valid (processRows cfg valid rows)) := by
  rw [runMain, if_neg (by omega), hok]

theorem runMain_success_inv {argv valid : List String} {fn : Option (List String)}
    {rows : List (String → String)} {o : Output}
    (h : runMain argv valid fn rows = RunResult.success o) :
    ∃ cfg, detectColumns fn = SchemaResult.ok cfg ∧
      o = buildOutput MIN_CELL_LINES valid (processRows cfg valid rows) := by
  rw [runMain] at h
  split_ifs at h with h2
  cases hd : detectColumns fn with
  | crash => rw [hd] at h; simp at h
  | schemaError => rw [hd] at h; simp at h
  | ok cfg =>
    rw [hd] at h
    simp only [RunResult.success.injEq] at h
    exact ⟨cfg, rfl, h.symm⟩

/-! ## Lookup in the per-gene partner and translocation maps -/

theorem alookup_partners_none {cd : List (String × List String)} (m : String) :
    alookup (cd.map (fun x => (x.1, sortStrings x.2))) m = none ↔ alookup cd m = none := by
  rw [alookup_mapValues (fun v => sortStrings v) cd m]
  cases alookup cd m <;> simp

theorem filter_absent_congr (valid : List String) (cd : List (String × List String)) :
    valid.dedup.filter
        (fun m => decide (alookup (cd.map (fun x => (x.1, sortStrings x.2))) m = none)) =
      valid.dedup.filter (fun m => decide (alookup cd m = none)) := by
  apply List.filter_congr
  intro m _
  cases h : alookup cd m with
  | none => simp [(alookup_partners_none m).mpr h, h]
  | some v =>
    have hne : ¬ alookup (cd.map (fun x => (x.1, sortStrings x.2))) m = none := by
      rw [alookup_partners_none, h]
      simp
    simp [hne, h]

/-! ## Claim theorems -/

/-- C1: for every gene in the output `geneData`, the three bucket counts
sum to the size of the valid-cell-line set loaded from `metadata.json`,
and bucket `"0"` counts exactly the identifiers of the valid set that are
absent from that gene's partner map. -/
theorem c1_bucket_invariant (argv valid : List String) (fn : Option (List String))
    (rows : List (String → String)) (o : Output) (g : String) (e : GeneEntry)
    (hrun : runMain argv valid fn rows = RunResult.success o)
    (hg : alookup o.geneData g = some e) :
    e.counts0 + e.counts1 + e.counts2 = (valid.dedup.length : Int) ∧
      e.counts0 =
        ((valid.dedup.filter (fun m => decide (alookup e.partners m = none))).length : Int) := by
  obtain ⟨cfg, hok, ho⟩ := runMain_success_inv hrun
  subst ho
  rw [alookup_geneData] at hg
  split_ifs at hg with hmem
  rw [Option.some_inj] at hg
  subst hg
  have hwf : PMwf valid
      ((alookup (filterGenes MIN_CELL_LINES
        (buildGenePartners (processRows cfg valid rows))) g).getD []) :=
    cd_wf processRows_model_mem g
  have hsplit := bucket_split (fun x hx => (hwf.2 x hx).2)
  have habs := absent_count hwf.1 (fun x hx => (hwf.2 x hx).1)
  constructor
  · simp only [mkGeneEntry]
    omega
  · simp only [mkGeneEntry]
    rw [filter_absent_congr]
    omega

theorem c1_bucket_invariant_witness :
    demoEntry.counts0 + demoEntry.counts1 + demoEntry.counts2 = (demoValid.dedup.length : Int) ∧
      demoEntry.counts0 =
        ((demoValid.dedup.filter
          (fun m => decide (alookup demoEntry.partners m = none))).length : Int) :=
  c1_bucket_invariant ["prog", "f.csv"] demoValid demoHeader demoRows demoOut "BCR" demoEntry
    rfl (by decide)

/-- C2: for every gene in the output, `total_translocated` equals
`counts["1"] + counts["2"]` and is at least `MIN_CELL_LINES = 3`; a gene
whose partner index covers fewer than three distinct identifiers is
absent from the output. -/
theorem c2_threshold (argv valid : List String) (fn : Option (List String))
    (rows : List (String → String)) (o : Output)
    (hrun : runMain argv valid fn rows = RunResult.success o) :
    (∀ g e, alookup o.geneData g = some e →
      e.total_translocated = e.counts1 + e.counts2 ∧
        MIN_CELL_LINES ≤ e.total_translocated) ∧
    (∀ cfg g, detectColumns fn = SchemaResult.ok cfg →
      (((alookup (buildGenePartners (processRows cfg valid rows)) g).getD
          []).map Prod.fst).dedup.length < MIN_CELL_LINES →
      alookup o.geneData g = none ∧ g ∉ o.genes) := by
  obtain ⟨cfg, hok, ho⟩ := runMain_success_inv hrun
  subst ho
  have hgpwf : GPwf valid (buildGenePartners (processRows cfg valid rows)) :=
    GPwf_buildGenePartners processRows_model_mem
  have hfwf : GPwf valid (filterGenes MIN_CELL_LINES
      (buildGenePartners (processRows cfg valid rows))) := GPwf_filterGenes hgpwf
  constructor
  · intro g e hg
    rw [alookup_geneData] at hg
    split_ifs at hg with hmem
    rw [Option.some_inj] at hg
    subst hg
    have hgk : g ∈ (filterGenes MIN_CELL_LINES
        (buildGenePartners (processRows cfg valid rows))).map Prod.fst :=
      mem_sortStrings.mp hmem
    obtain ⟨x, hx, hxg⟩ := List.mem_map.mp hgk
    have hax : alookup (filterGenes MIN_CELL_LINES
        (buildGenePartners (processRows cfg valid rows))) g = some x.2 := by
      apply alookup_of_mem_nodup hfwf.1
      rw [← hxg]
      exact hx
    have hxmin : MIN_CELL_LINES ≤ x.2.length := by
      have := (List.mem_filter.mp hx).2
      simpa using this
    have hwf : PMwf valid ((alookup (filterGenes MIN_CELL_LINES
        (buildGenePartners (processRows cfg valid rows))) g).getD []) :=
      cd_wf processRows_model_mem g
    have hsplit := bucket_split (fun x hx => (hwf.2 x hx).2)
    constructor
    · simp only [mkGeneEntry]
      omega
    · simp only [mkGeneEntry]
      rw [hax]
      simpa using hxmin
  · intro cfg' g hok' hlt
    rw [hok] at hok'
    rw [SchemaResult.ok.injEq] at hok'
    subst hok'
    have hnotmem : g ∉ sortStrings ((filterGenes MIN_CELL_LINES
        (buildGenePartners (processRows cfg valid rows))).map Prod.fst) := by
      intro hmem
      have hgk := mem_sortStrings.mp hmem
      obtain ⟨x, hx, hxg⟩ := List.mem_map.mp hgk
      have hxmin : MIN_CELL_LINES ≤ x.2.length := by
        have := (List.mem_filter.mp hx).2
        simpa using this
      have hxgp : x ∈ buildGenePartners (processRows cfg valid rows) :=
        List.mem_of_mem_filter hx
      have hax : alookup (buildGenePartners (processRows cfg valid rows)) g = some x.2 := by
        apply alookup_of_mem_nodup hgpwf.1
        rw [← hxg]
        exact hxgp
      rw [hax] at hlt
      have hnd : (x.2.map Prod.fst).Nodup := (hgpwf.2 x hxgp).1
      rw [Option.getD_some, hnd.dedup, List.length_map] at hlt
      omega
    constructor
    · rw [alookup_geneData, if_neg hnotmem]
    · exact hnotmem

theorem c2_threshold_witness :
    (demoEntry.total_translocated = demoEntry.counts1 + demoEntry.counts2 ∧
      MIN_CELL_LINES ≤ demoEntry.total_translocated) ∧
    (alookup demoOut.geneData "XYZ" = none ∧ "XYZ" ∉ demoOut.genes) := by
  refine ⟨?_, ?_⟩
  · exact (c2_threshold ["prog", "f.csv"] demoValid demoHeader demoRows demoOut rfl).1
      "BCR" demoEntry (by decide)
  · exact (c2_threshold ["prog", "f.csv"] demoValid demoHeader demoRows demoOut rfl).2
      geneCfg "XYZ" (by decide) (by decide)

theorem partnerRecorded_of_memPartner {valid : List String} {fusions : List Fusion}
    {g m p : String}
    (hval : ∀ e ∈ fusions, e.model ∈ valid)
    (hmp : memPartner (buildGenePartners fusions) g m p)
    (hg : g ∈ (buildOutput MIN_CELL_LINES valid fusions).genes) :
    partnerRecorded (buildOutput MIN_CELL_LINES valid fusions) g m p = true := by
  obtain ⟨pm, ps, h1, h2, h3⟩ := hmp
  have hgpwf : GPwf valid (buildGenePartners fusions) := GPwf_buildGenePartners hval
  have hfwf : GPwf valid (filterGenes MIN_CELL_LINES (buildGenePartners fusions)) :=
    GPwf_filterGenes hgpwf
  have hgk : g ∈ (filterGenes MIN_CELL_LINES (buildGenePartners fusions)).map Prod.fst :=
    mem_sortStrings.mp hg
  obtain ⟨x, hx, hxg⟩ := List.mem_map.mp hgk
  have hxgp : x ∈ buildGenePartners fusions := List.mem_of_mem_filter hx
  have hax : alookup (buildGenePartners fusions) g = some x.2 := by
    apply alookup_of_mem_nodup hgpwf.1
    rw [← hxg]
    exact hxgp
  have hpm : x.2 = pm := by
    rw [h1] at hax
    exact (Option.some_inj.mp hax).symm
  have haxf : alookup (filterGenes MIN_CELL_LINES (buildGenePartners fusions)) g = some pm := by
    rw [← hpm]
    apply alookup_of_mem_nodup hfwf.1
    rw [← hxg]
    exact hx
  have hg' : g ∈ sortStrings
      ((filterGenes MIN_CELL_LINES (buildGenePartners fusions)).map Prod.fst) := hg
  rw [partnerRecorded, alookup_geneData, if_pos hg', haxf]
  simp only [Option.getD_some, mkGeneEntry]
  rw [alookup_mapValues (fun v => sortStrings v) pm m, h2]
  simp only [Option.map_some']
  rw [decide_eq_true_eq]
  exact mem_sortStrings.mpr h3

/-- C3: aggregation is symmetric: every accepted fusion event `(C, A, B)`
records `B` among the partners of gene `A` for cell line `C` in the
output, and `A` among the partners of gene `B`, provided both genes pass
the threshold filter (i.e. appear in the output's gene list). -/
theorem c3_symmetry (argv valid : List String) (fn : Option (List String))
    (rows : List (String → String)) (o : Output) (cfg : ColConfig) (C A B : String)
    (hrun : runMain argv valid fn rows = RunResult.success o)
    (hok : detectColumns fn = SchemaResult.ok cfg)
    (hev : Fusion.mk C A B ∈ processRows cfg valid rows)
    (hA : A ∈ o.genes) (hB : B ∈ o.genes) :
    partnerRecorded o A C B = true ∧ partnerRecorded o B C A = true := by
  obtain ⟨cfg', hok', ho⟩ := runMain_success_inv hrun
  rw [hok] at hok'
  rw [SchemaResult.ok.injEq] at hok'
  subst hok'
  subst ho
  have hval := @processRows_model_mem cfg valid rows
  have hmp := memPartner_build _ hev
  exact ⟨partnerRecorded_of_memPartner hval hmp.1 hA,
    partnerRecorded_of_memPartner hval hmp.2 hB⟩

theorem c3_symmetry_witness :
    partnerRecorded demoOut "BCR" "ACH-1" "ABL1" = true ∧
      partnerRecorded demoOut "ABL1" "ACH-1" "BCR" = true :=
  c3_symmetry ["prog", "f.csv"] demoValid demoHeader demoRows demoOut geneCfg
    "ACH-1" "BCR" "ABL1" rfl (by decide) (by decide) (by decide) (by decide)

theorem map_fst_graph {V : Type} (f : String → V) : ∀ l : List String,
    (l.map (fun g => (g, f g))).map Prod.fst = l := by
  intro l
  induction l with
  | nil => rfl
  | cons g gs ih => simp [ih]

/-- C4: the output's `genes` array is sorted in code-point (alphabetical)
order and is exactly the key list of both the `geneCounts` and the
`geneData` mappings. -/
theorem c4_sorted_keys (argv valid : List String) (fn : Option (List String))
    (rows : List (String → String)) (o : Output)
    (hrun : runMain argv valid fn rows = RunResult.success o) :
    List.Pairwise (fun a b => strLe a b = true) o.genes ∧
      o.geneCounts.map Prod.fst = o.genes ∧ o.geneData.map Prod.fst = o.genes := by
  obtain ⟨cfg, hok, ho⟩ := runMain_success_inv hrun
  subst ho
  exact ⟨pairwise_sortStrings _, map_fst_graph _ _, map_fst_graph _ _⟩

theorem c4_sorted_keys_witness :
    List.Pairwise (fun a b => strLe a b = true) demoOut.genes ∧
      demoOut.geneCounts.map Prod.fst = demoOut.genes ∧
      demoOut.geneData.map Prod.fst = demoOut.genes :=
  c4_sorted_keys ["prog", "f.csv"] demoValid demoHeader demoRows demoOut rfl

/-- C5 counterexample: with header `X, modelid, FusionName`, the header
`modelid` differs from the synonym `ModelID` only in letter case, yet the
detector does not resolve it as the identifier column: it falls back to
the first column `X`.  Identifier-column matching is case-sensitive. -/
theorem c5_counterexample :
    detectColumns (some ["X", "modelid", "FusionName"]) =
        SchemaResult.ok ⟨"X", none, none, some "FusionName"⟩ ∧
      pyLower "modelid" = pyLower "ModelID" ∧ ("modelid" : String) ≠ "X" := by decide

/-- C5 (amended): the identifier column is matched case-sensitively
(exact string equality) against the synonym list; when some header is an
exact synonym the resolved column is one of the synonyms occurring in the
header, and otherwise — including headers that differ from a synonym only
in letter case — the detector falls back to the first column. -/
theorem c5_amended (cols : List String) (cfg : ColConfig)
    (h : detectColumns (some cols) = SchemaResult.ok cfg) :
    (cfg.modelCol ∈ modelColSynonyms ∧ cfg.modelCol ∈ cols) ∨
      ((∀ c ∈ cols, c ∉ modelColSynonyms) ∧ cols.head? = some cfg.modelCol) := by
  cases cols with
  | nil => simp [detectColumns] at h
  | cons c0 cs =>
    have hm : cfg.modelCol = (findSynonym modelColSynonyms (c0 :: cs)).getD c0 :=
      detectColumnsCore_modelCol h
    cases hf : findSynonym modelColSynonyms (c0 :: cs) with
    | none =>
      right
      refine ⟨(findSynonym_none_iff _ _).mp hf, ?_⟩
      rw [hm, hf]
      simp
    | some c =>
      left
      obtain ⟨h1, h2⟩ := findSynonym_some _ hf
      rw [hm, hf]
      exact ⟨h1, h2⟩

theorem c5_amended_witness :
    ((ColConfig.mk "DepMap_ID" none none (some "FusionName")).modelCol ∈ modelColSynonyms ∧
        (ColConfig.mk "DepMap_ID" none none (some "FusionName")).modelCol ∈
          (["DepMap_ID", "FusionName"] : List String)) ∨
      ((∀ c ∈ (["DepMap_ID", "FusionName"] : List String), c ∉ modelColSynonyms) ∧
        (["DepMap_ID", "FusionName"] : List String).head? =
          some (ColConfig.mk "DepMap_ID" none none (some "FusionName")).modelCol) :=
  c5_amended ["DepMap_ID", "FusionName"]
    (ColConfig.mk "DepMap_ID" none none (some "FusionName")) (by decide)

/-- C6 counterexample: for the fusion name `A-B-C` (three single-hyphen
separated segments) the extracted gene pair is `("A", "B-C")` — the first
segment and the entire remainder — not the first and second segments
`("A", "B")` as the claim states. -/
theorem c6_counterexample :
    splitFusionName "A-B-C" = some ("A", "B-C") ∧
      extractPair fusionCfg (mkRowF "ACH-1" "A-B-C") = some ("A", "B-C") ∧
      (("B-C" : String)) ≠ "B" := by decide

/-- C6 (amended): a combined fusion name is split on a double hyphen if
one occurs, else on a single hyphen, at the FIRST occurrence only
(`split(sep, 1)`): the pair is the text before the first delimiter and
the entire remainder after it.  A name with no hyphen admits no such
split (the row is skipped), and a row whose extracted pair has an empty
component is skipped. -/
theorem c6_amended :
    (∀ fname : String, splitFusionName fname = none →
      ∀ a b : String, fname ≠ a ++ "-" ++ b) ∧
    (∀ fname a b : String, splitFusionName fname = some (a, b) →
      (fname = a ++ "--" ++ b ∧
          ∀ x y : String, fname = x ++ "--" ++ y → a.length ≤ x.length) ∨
        ((∀ x y : String, fname ≠ x ++ "--" ++ y) ∧ fname = a ++ "-" ++ b ∧
          ∀ x y : String, fname = x ++ "-" ++ y → a.length ≤ x.length)) ∧
    (∀ cfg : ColConfig, ∀ valid : List String, ∀ row : String → String, ∀ a b : String,
      extractPair cfg row = some (a, b) → a = "" ∨ b = "" →
      extractFusion cfg valid row = none) := by
  refine ⟨?_, ?_, ?_⟩
  · intro fname hnone a b
    rw [splitFusionName] at hnone
    cases h2 : splitOnce "--" fname with
    | some pq => rw [h2] at hnone; simp at hnone
    | none =>
      rw [h2] at hnone
      exact splitOnce_none (by decide) hnone a b
  · intro fname a b hsome
    rw [splitFusionName] at hsome
    cases h2 : splitOnce "--" fname with
    | some pq =>
      rw [h2] at hsome
      rw [Option.some_inj] at hsome
      subst hsome
      left
      exact ⟨splitOnce_sound h2, splitOnce_min h2⟩
    | none =>
      rw [h2] at hsome
      right
      exact ⟨splitOnce_none (by decide) h2, splitOnce_sound hsome, splitOnce_min hsome⟩
  · intro cfg valid row a b hp he
    rcases he with he | he <;> subst he <;> simp [extractFusion, hp]

theorem c6_amended_witness :
    splitFusionName "A-B-C" = some ("A", "B-C") ∧
      ((("A-B-C" : String) = "A" ++ "--" ++ "B-C" ∧
          ∀ x y : String, ("A-B-C" : String) = x ++ "--" ++ y →
            ("A" : String).length ≤ x.length) ∨
        ((∀ x y : String, ("A-B-C" : String) ≠ x ++ "--" ++ y) ∧
          ("A-B-C" : String) = "A" ++ "-" ++ "B-C" ∧
          ∀ x y : String, ("A-B-C" : String) = x ++ "-" ++ y →
            ("A" : String).length ≤ x.length)) :=
  ⟨by decide, c6_amended.2.1 "A-B-C" "A" "B-C" (by decide)⟩

/-- C8: on the specification's concrete three input rows, with valid cell
lines `{ACH-1, ACH-2, ACH-3}` and the threshold constant set to 1, gene
`BCR` has `translocations = {ACH-1: 1, ACH-2: 1}`,
`counts = {"0": 1, "1": 2, "2": 0}` and `total_translocated = 2`: the
duplicate `(ACH-1, BCR, ABL1)` observation is deduplicated and the
parenthesized suffix of `BCR (ENSG1)` is stripped before aggregation. -/
theorem c8_concrete_example :
    alookup c8Out.geneData "BCR" =
      some { translocations := [("ACH-1", 1), ("ACH-2", 1)],
             partners := [("ACH-1", ["ABL1"]), ("ACH-2", ["ABL1"])],
             counts0 := 1, counts1 := 2, counts2 := 0, total_translocated := 2 } := by
  decide

/-- C9: the run terminates on the documented exit-1 path in exactly two
cases — a missing CLI argument, or a resolvable-header situation where
neither a gene-column pair nor a combined-name column exists; whenever
the schema is resolved the run succeeds for arbitrary data rows, and a
row whose stripped identifier is not a valid cell line, a row whose pair
fails to extract, and a row with an empty gene value are all silently
skipped rather than causing an error. -/
theorem c9_exit_behavior (argv valid : List String) (fn : Option (List String))
    (rows : List (String → String)) :
    (runMain argv valid fn rows = RunResult.usageError ↔ argv.length < 2) ∧
    (runMain argv valid fn rows = RunResult.schemaError ↔
      (2 ≤ argv.length ∧ ∃ cols, fn = some cols ∧ cols ≠ [] ∧
        ¬(hasHeaderIn gene1Synonyms cols ∧ hasHeaderIn gene2Synonyms cols) ∧
        ¬hasHeaderIn fusionNameSynonyms cols)) ∧
    (∀ cfg, 2 ≤ argv.length → detectColumns fn = SchemaResult.ok cfg →
      runMain argv valid fn rows =
        RunResult.success (buildOutput MIN_CELL_LINES valid (processRows cfg valid rows))) ∧
    (∀ cfg : ColConfig, ∀ row : String → String,
      pyStrip (row cfg.modelCol) ∉ valid → extractFusion cfg valid row = none) ∧
    (∀ cfg : ColConfig, ∀ row : String → String,
      extractPair cfg row = none → extractFusion cfg valid row = none) := by
  refine ⟨runMain_usageError_iff argv valid fn rows, ?_, ?_, ?_, ?_⟩
  · rw [runMain_schemaError_iff]
    constructor
    · rintro ⟨h2, hse⟩
      refine ⟨h2, ?_⟩
      cases fn with
      | none => simp [detectColumns] at hse
      | some cols =>
        cases cols with
        | nil => simp [detectColumns] at hse
        | cons c0 cs =>
          refine ⟨c0 :: cs, rfl, by simp, ?_⟩
          have hc : detectColumnsCore c0 cs = SchemaResult.schemaError := hse
          rw [detectColumnsCore_schemaError, detectGeneCols_gene1_none,
            detectGeneCols_gene2_none, detectGeneCols_fname_none] at hc
          constructor
          · rintro ⟨⟨a, ha, ha2⟩, ⟨b, hb, hb2⟩⟩
            rcases hc.1 with hall | hall
            · exact hall a ha ha2
            · exact hall b hb hb2
          · rintro ⟨f, hf, hf2⟩
            exact hc.2 f hf hf2
    · rintro ⟨h2, cols, hcols, hne, hng, hnf⟩
      subst hcols
      cases cols with
      | nil => exact absurd rfl hne
      | cons c0 cs =>
        refine ⟨h2, ?_⟩
        show detectColumnsCore c0 cs = SchemaResult.schemaError
        rw [detectColumnsCore_schemaError, detectGeneCols_gene1_none,
          detectGeneCols_gene2_none, detectGeneCols_fname_none]
        constructor
        · by_cases hg1 : ∀ c ∈ c0 :: cs, normalizeHeader c ∉ gene1Synonyms
          · exact Or.inl hg1
          · right
            push_neg at hg1
            obtain ⟨a, ha, ha2⟩ := hg1
            intro b hb hb2
            exact hng ⟨⟨a, ha, ha2⟩, ⟨b, hb, hb2⟩⟩
        · intro f hf hf2
          exact hnf ⟨f, hf, hf2⟩
  · intro cfg h2 hok
    exact runMain_success_of h2 hok
  · intro cfg row hnv
    simp [extractFusion, hnv]
  · intro cfg row hp
    simp [extractFusion, hp]

theorem c9_exit_behavior_witness :
    runMain ["prog"] [] none [] = RunResult.usageError :=
  (c9_exit_behavior ["prog"] [] none []).1.mpr (by decide)

/-- C10: when the CSV reader yields no header (`reader.fieldnames` is
`None`, e.g. for an empty input file), the run ends in an uncaught
exception (`TypeError` while iterating `None` at line 53) — the `crash`
outcome, distinct from a normal exit and from the documented
message-plus-exit-1 outcomes. -/
theorem c10_empty_header_crash :
    runMain ["prog", "OmicsFusionFiltered.csv"] ["ACH-1"] none [] = RunResult.crash := by
  decide

/-! ## First-occurrence uniqueness of the split, for the path comparison -/

theorem splitOnce_unique {sep s x y : String} (hsep : sep ≠ "")
    (hs : s = x ++ sep ++ y)
    (hmin : ∀ x' y' : String, s = x' ++ sep ++ y' → x.length ≤ x'.length) :
    splitOnce sep s = some (x, y) := by
  cases h : splitOnce sep s with
  | none => exact absurd hs (splitOnce_none hsep h x y)
  | some ab =>
    obtain ⟨a, b⟩ := ab
    have hsound := splitOnce_sound h
    have h1 : a.length ≤ x.length := splitOnce_min h x y hs
    have h2 : x.length ≤ a.length := hmin a b hsound
    have hlen : a.data.length = x.data.length := le_antisymm h1 h2
    have hdata : a.data ++ (sep.data ++ b.data) = x.data ++ (sep.data ++ y.data) := by
      have := congrArg String.data (hsound.symm.trans hs)
      simpa [List.append_assoc] using this
    obtain ⟨hax, hrest⟩ := List.append_inj hdata hlen
    have hby : b.data = y.data := List.append_cancel_left hrest
    rw [String.ext hax, String.ext hby]

theorem min_split_of_no_dash {g1 g2 : String} (h1h : '-' ∉ g1.data) :
    ∀ x y : String, g1 ++ "--" ++ g2 = x ++ "--" ++ y → g1.length ≤ x.length := by
  intro x y hxy
  by_contra hlt
  push_neg at hlt
  have hlt' : x.data.length < g1.data.length := hlt
  have hdata : x.data ++ ('-' :: '-' :: y.data) = g1.data ++ ('-' :: '-' :: g2.data) := by
    have := congrArg String.data hxy.symm
    simpa [List.append_assoc] using this
  have hx : x.data <+: (g1.data ++ ('-' :: '-' :: g2.data)) := ⟨'-' :: '-' :: y.data, hdata⟩
  have hg : g1.data <+: (g1.data ++ ('-' :: '-' :: g2.data)) := List.prefix_append _ _
  have hxg : x.data <+: g1.data :=
    List.prefix_of_prefix_length_le hx hg (Nat.le_of_lt hlt')
  obtain ⟨t, ht⟩ := hxg
  have htne : t ≠ [] := by
    intro h0
    rw [h0, List.append_nil] at ht
    rw [ht] at hlt'
    omega
  rw [← ht, List.append_assoc] at hdata
  have h5 : ('-' :: '-' :: y.data) = t ++ ('-' :: '-' :: g2.data) :=
    List.append_cancel_left hdata
  cases t with
  | nil => exact htne rfl
  | cons c t' =>
    rw [List.cons_append] at h5
    have hc : c = '-' := by
      have := h5
      injection this with hh _
      exact hh.symm
    apply h1h
    rw [← ht]
    apply List.mem_append_right
    rw [hc]
    exact List.mem_cons_self _ _

theorem dropWhile_eq_self_of_all {p : Char → Bool} : ∀ {l : List Char},
    (∀ c ∈ l, p c = false) → l.dropWhile p = l := by
  intro l
  cases l with
  | nil => intro _; rfl
  | cons c t =>
    intro h
    rw [List.dropWhile_cons]
    simp [h c (List.mem_cons_self _ _)]

theorem pyStrip_id {s : String} (h : ∀ c ∈ s.data, c.isWhitespace = false) :
    pyStrip s = s := by
  rw [pyStrip, dropWhile_eq_self_of_all h,
    dropWhile_eq_self_of_all (fun c hc => h c (List.mem_reverse.mp hc)),
    List.reverse_reverse]

/-- C7 counterexample: the two extraction paths do NOT agree for every
row.  For the gene name `BCR (ENSG1)` the explicit-columns path strips
the parenthesized annotation while the combined-name fallback does not,
so the same logical row yields different fusion events on the two
paths. -/
theorem c7_counterexample :
    extractFusion fusionCfg ["ACH-1"] (mkRowF "ACH-1" "BCR (ENSG1)--ABL1") =
        some ⟨"ACH-1", "BCR (ENSG1)", "ABL1"⟩ ∧
      extractFusion geneCfg ["ACH-1"] (mkRow3 "ACH-1" "BCR (ENSG1)" "ABL1") =
        some ⟨"ACH-1", "BCR", "ABL1"⟩ ∧
      (Fusion.mk "ACH-1" "BCR (ENSG1)" "ABL1") ≠ Fusion.mk "ACH-1" "BCR" "ABL1" := by
  decide

/-- C7 (amended): the combined-name fallback and the explicit-columns
path agree on plain gene names — names without hyphens in the first
gene, without whitespace, without a parenthesized annotation, and
non-empty: a row with fusion name `g1--g2` yields exactly the same
fusion event as a row with explicit gene columns `g1`, `g2` (in
particular `BCR--ABL1` matches columns `BCR`, `ABL1`).  On names with a
parenthesized annotation the two paths differ, since only the
explicit-columns path strips it. -/
theorem c7_amended (valid : List String) (m g1 g2 : String)
    (hm : pyStrip m = m)
    (h1ws : ∀ c ∈ g1.data, c.isWhitespace = false)
    (h2ws : ∀ c ∈ g2.data, c.isWhitespace = false)
    (h1h : '-' ∉ g1.data)
    (h1p : splitOnce " (" g1 = none) (h2p : splitOnce " (" g2 = none)
    (h1n : g1 ≠ "") (h2n : g2 ≠ "") :
    extractFusion fusionCfg valid (mkRowF m (g1 ++ "--" ++ g2)) =
        extractFusion geneCfg valid (mkRow3 m g1 g2) ∧
      extractFusion geneCfg valid (mkRow3 m g1 g2) =
        (if m ∈ valid then some ⟨m, g1, g2⟩ else none) := by
  have hcat_ws : ∀ c ∈ (g1 ++ "--" ++ g2).data, c.isWhitespace = false := by
    intro c hc
    simp only [String.data_append] at hc
    rcases List.mem_append.mp hc with hc | hc
    · rcases List.mem_append.mp hc with hc | hc
      · exact h1ws c hc
      · have hc' : c = '-' ∨ c = '-' ∨ False := by simpa using hc
        rcases hc' with rfl | rfl | h0
        · rfl
        · rfl
        · exact absurd h0 (by simp)
    · exact h2ws c hc
  have hstrip_cat : pyStrip (g1 ++ "--" ++ g2) = g1 ++ "--" ++ g2 := pyStrip_id hcat_ws
  have hstrip1 : pyStrip g1 = g1 := pyStrip_id h1ws
  have hstrip2 : pyStrip g2 = g2 := pyStrip_id h2ws
  have hsplit : splitOnce "--" (g1 ++ "--" ++ g2) = some (g1, g2) :=
    splitOnce_unique (by decide) rfl (min_split_of_no_dash h1h)
  have hsfn : splitFusionName (g1 ++ "--" ++ g2) = some (g1, g2) := by
    rw [splitFusionName, hsplit]
  have hse1 : stripEnsembl g1 = g1 := by rw [stripEnsembl, h1p]
  have hse2 : stripEnsembl g2 = g2 := by rw [stripEnsembl, h2p]
  have hR : extractFusion geneCfg valid (mkRow3 m g1 g2) =
      (if m ∈ valid then some ⟨m, g1, g2⟩ else none) := by
    by_cases hv : m ∈ valid
    · simp [extractFusion, extractPair, geneCfg, mkRow3, hm, hstrip1, hstrip2,
        hse1, hse2, h1n, h2n, hv]
    · simp [extractFusion, extractPair, geneCfg, mkRow3, hm, hv]
  have hL : extractFusion fusionCfg valid (mkRowF m (g1 ++ "--" ++ g2)) =
      (if m ∈ valid then some ⟨m, g1, g2⟩ else none) := by
    by_cases hv : m ∈ valid
    · simp [extractFusion, extractPair, fusionCfg, mkRowF, hm, hstrip_cat, hsfn,
        hstrip1, hstrip2, h1n, h2n, hv]
    · simp [extractFusion, extractPair, fusionCfg, mkRowF, hm, hv]
  exact ⟨hL.trans hR.symm, hR⟩

theorem c7_amended_witness :
    extractFusion fusionCfg ["ACH-1"] (mkRowF "ACH-1" ("BCR" ++ "--" ++ "ABL1")) =
        extractFusion geneCfg ["ACH-1"] (mkRow3 "ACH-1" "BCR" "ABL1") ∧
      extractFusion geneCfg ["ACH-1"] (mkRow3 "ACH-1" "BCR" "ABL1") =
        (if ("ACH-1" : String) ∈ (["ACH-1"] : List String)
          then some ⟨"ACH-1", "BCR", "ABL1"⟩ else none) :=
  c7_amended ["ACH-1"] "ACH-1" "BCR" "ABL1" (by decide) (by decide) (by decide)
    (by decide) (by decide) (by decide) (by decide) (by decide)
